import Mathlib

/-!
Verification of the ndml linear-algebra library (fixed-size vectors,
column-major matrices, quaternions).  The definitions below are shallow
embeddings of the C++ templates in `include/ndml`: a `vec<N, T>` becomes
`Ndml.Vec n α` (four named fields `x y z w`, of which only the first `n`
are live; the remaining fields model the zero-sized `burn_t` placeholders
and are kept at their value-initialized default), a `mat<R, C, T>` becomes
`Ndml.Mat r c α` (a column-major family of `C` columns, each a `Vec r α`),
and `quat<T>` is a `Vec 4 α`.  Machine floating-point arithmetic is
modelled by exact field arithmetic (`ℚ` / `ℝ`).
-/

namespace Ndml

/-- Message of the `std::out_of_range` thrown by `vec::operator[]`
(`vec.inl`, the `default:` branch of the subscript switch). -/
def oorMsg : String := "index out of range in call to vec subscript operator"

/-- Embedding of `ndml::vec<N, T>` (`vec.hpp`): four named component fields
`x`, `y`, `z`, `w`.  Only fields of index `< n` are meaningful; fields at
index `≥ n` correspond to the unusable `meta::burn_t` placeholders of the
source and are never read or written by any embedded operation. -/
structure Vec (n : Nat) (α : Type) : Type where
  x : α
  y : α
  z : α
  w : α
deriving DecidableEq

variable {n m k r c : Nat} {α : Type}

/-- Default construction (`vec.hpp`): every component is value-initialized,
i.e. zero for numeric element types. -/
def Vec.zero [Zero α] : Vec n α := ⟨0, 0, 0, 0⟩

/-- Unchecked read of the component at index `i` (indices `0..3` name the
fields `x`, `y`, `z`, `w`).  Used only at indices `< n`, where it agrees
with the checked subscript operator. -/
def Vec.nth (v : Vec n α) : Nat → α
  | 0 => v.x
  | 1 => v.y
  | 2 => v.z
  | _ => v.w

/-- Unchecked write of the component at index `i`.  Used only at indices
`< n`, where it is the effect of assigning through `vec::operator[]`. -/
def Vec.setNth (v : Vec n α) (i : Nat) (a : α) : Vec n α :=
  match i with
  | 0 => { v with x := a }
  | 1 => { v with y := a }
  | 2 => { v with z := a }
  | _ => { v with w := a }

/-- Embedding of `vec::operator[]` (`vec.inl` lines 52-101) as a read: the
switch returns the named component for `i < n` (each `case i` guards with
`if constexpr (i < N)` and otherwise falls through), and every fall-through
path as well as the `default:` case throws `std::out_of_range`. -/
def Vec.get (v : Vec n α) (i : Nat) : Except String α :=
  match i with
  | 0 => if 0 < n then .ok v.x else .error oorMsg
  | 1 => if 1 < n then .ok v.y else .error oorMsg
  | 2 => if 2 < n then .ok v.z else .error oorMsg
  | 3 => if 3 < n then .ok v.w else .error oorMsg
  | _ => .error oorMsg

/-- Assignment through `vec::operator[]`: the subscript operator is
evaluated first (throwing for `i ≥ n`, in which case the vector is left
untouched), and on success the returned reference is written. -/
def Vec.subscriptSet (v : Vec n α) (i : Nat) (a : α) : Except String (Vec n α) :=
  match v.get i with
  | .ok _ => .ok (v.setNth i a)
  | .error e => .error e

/-- Embedding of `ndml::transform` (`operation.inl`): applies `f` to each
live component (iteration covers exactly the indices `[0, n)`). -/
def Vec.mapN (f : α → α) (v : Vec n α) : Vec n α :=
  ⟨if 0 < n then f v.x else v.x,
   if 1 < n then f v.y else v.y,
   if 2 < n then f v.z else v.z,
   if 3 < n then f v.w else v.w⟩

/-- Embedding of `ndml::zip_transform` (`operation.inl`): combines the
respective live components of two vectors with `f`, writing the result
into the left operand's component. -/
def Vec.zipN (f : α → α → α) (u v : Vec n α) : Vec n α :=
  ⟨if 0 < n then f u.x v.x else u.x,
   if 1 < n then f u.y v.y else u.y,
   if 2 < n then f u.z v.z else u.z,
   if 3 < n then f u.w v.w else u.w⟩

/-- Vector addition `operator+` / `operator+=` (`operation.inl`):
componentwise addition over the live components. -/
def Vec.add [Add α] (u v : Vec n α) : Vec n α := Vec.zipN (fun a b => a + b) u v

/-- Vector-scalar multiplication `operator*=` (`operation.inl`): each live
component is multiplied by the scalar on the right. -/
def Vec.smul [Mul α] (v : Vec n α) (s : α) : Vec n α := Vec.mapN (fun a => a * s) v

/-- Vector-scalar division `operator/=` (`operation.inl`): each live
component is divided by the scalar. -/
def Vec.divScalar [Div α] (v : Vec n α) (s : α) : Vec n α := Vec.mapN (fun a => a / s) v

/-- Embedding of `ndml::dot` (`operation.inl`): a zero-initialized
accumulator summed with `lhs[i] * rhs[i]` over the loop `i = 0 .. n-1`. -/
def Vec.dot [Mul α] [Add α] [Zero α] (u v : Vec n α) : α :=
  (List.range n).foldl (fun s i => s + u.nth i * v.nth i) 0

/-- Embedding of `ndml::norm_squared` (`operation.inl`): the dot product of
a vector with itself. -/
def Vec.normSq [Mul α] [Add α] [Zero α] (v : Vec n α) : α := v.dot v

/-- Embedding of `ndml::cross` (`operation.inl`): the right-handed cross
product of two 3-vectors, built from the named components; the fourth
field stays at its default. -/
def Vec.cross [Mul α] [Sub α] [Zero α] (u v : Vec 3 α) : Vec 3 α :=
  ⟨u.y * v.z - u.z * v.y, u.z * v.x - u.x * v.z, u.x * v.y - u.y * v.x, 0⟩

/-- Componentwise construction of a 2-vector (`vec.inl` variadic
constructor): trailing components stay value-initialized. -/
def Vec.mk2 [Zero α] (a b : α) : Vec 2 α := ⟨a, b, 0, 0⟩

/-- Componentwise construction of a 3-vector. -/
def Vec.mk3 [Zero α] (a b cc : α) : Vec 3 α := ⟨a, b, cc, 0⟩

/-- Componentwise construction of a 4-vector. -/
def Vec.mk4 (a b cc d : α) : Vec 4 α := ⟨a, b, cc, d⟩

/-- A vector whose live components are given by `f` and whose placeholder
fields stay at the value-initialized default: the result of default
construction followed by the writes `v[i] = f i` for `i = 0 .. n-1`. -/
def Vec.ofFnN (n : Nat) [Zero α] (f : Nat → α) : Vec n α :=
  ⟨if 0 < n then f 0 else 0,
   if 1 < n then f 1 else 0,
   if 2 < n then f 2 else 0,
   if 3 < n then f 3 else 0⟩

/-- Embedding of `vec`'s `operator==` (`operation.inl`):
`std::ranges::equal` over the component ranges, i.e. the live components
(indices `[0, n)`) are compared; placeholder fields do not participate. -/
def Vec.beqN [DecidableEq α] (u v : Vec n α) : Bool :=
  (List.range n).all fun i => decide (u.nth i = v.nth i)

theorem Vec.nth_zero (v : Vec n α) : v.nth 0 = v.x := rfl

theorem Vec.nth_one (v : Vec n α) : v.nth 1 = v.y := rfl

theorem Vec.nth_two (v : Vec n α) : v.nth 2 = v.z := rfl

theorem Vec.nth_three (v : Vec n α) : v.nth 3 = v.w := rfl

theorem Vec.nth_ofFnN [Zero α] {i : Nat} (f : Nat → α) (hn : n ≤ 4) (hi : i < n) :
    (Vec.ofFnN n f).nth i = f i := by
  match i, hi with
  | 0, hi => simp [Vec.ofFnN, Vec.nth, hi]
  | 1, hi => simp [Vec.ofFnN, Vec.nth, hi]
  | 2, hi => simp [Vec.ofFnN, Vec.nth, hi]
  | 3, hi => simp [Vec.ofFnN, Vec.nth, hi]
  | (i + 4), hi => omega

/-- Embedding of `ndml::mat<R, C, T>` (`mat.hpp`): an `std::array` of `C`
columns, each a `vec<R, T>`, stored column-major. -/
structure Mat (r c : Nat) (α : Type) : Type where
  cols : Fin c → Vec r α

/-- Column access `mat::operator[](column)` (`mat.inl`): unchecked in the
source (out-of-range columns are UB); the embedding is only ever applied
at indices `< c`, where the guard is exact. -/
def Mat.col [Zero α] (mm : Mat r c α) (j : Nat) : Vec r α :=
  if h : j < c then mm.cols ⟨j, h⟩ else Vec.zero

/-- Element access `mat::operator[](column, row)` (`mat.inl`), composed as
`self[column][row]`. -/
def Mat.entry [Zero α] (mm : Mat r c α) (ci ri : Nat) : α := (mm.col ci).nth ri

/-- Replacing one column of a matrix (the effect of writing through
`mat::operator[](column)`). -/
def Mat.setCol (mm : Mat r c α) (j : Nat) (v : Vec r α) : Mat r c α :=
  ⟨fun i => if (i : Nat) = j then v else mm.cols i⟩

/-- Writing one element (the effect of an in-range assignment through
`mat::operator[](column, row)`). -/
def Mat.setEntry [Zero α] (mm : Mat r c α) (ci ri : Nat) (a : α) : Mat r c α :=
  mm.setCol ci ((mm.col ci).setNth ri a)

/-- Default construction (`mat.hpp`): `columns_{}` value-initializes every
column, i.e. every entry is zero. -/
def Mat.zero [Zero α] : Mat r c α := ⟨fun _ => Vec.zero⟩

/-- Embedding of the scalar constructor `mat(FromT const& scale)`
(`mat.inl` lines 15-24): starting from a default-constructed matrix, the
loop writes `(*this)[i, i] = scale` for every `i < column_count`.  Row
bounds are not re-checked here; this total model is faithful exactly when
every write lands in range, i.e. when `c ≤ r` (see `matScalarChecked`). -/
def matScalar (r c : Nat) [Zero α] (s : α) : Mat r c α :=
  (List.range c).foldl (fun mm i => mm.setEntry i i s) Mat.zero

/-- The scalar constructor with the row-index check that the write
`(*this)[i, i]` actually performs: the row index goes through
`vec::operator[]`, which throws `std::out_of_range` for `i ≥ r` (the
throw escapes a `noexcept` constructor, so the program aborts).  An
`error` result models that abort. -/
def matScalarChecked (r c : Nat) [Zero α] (s : α) : Except String (Mat r c α) :=
  (List.range c).foldl
    (fun emm i => do
      let mm ← emm
      let v ← (mm.col i).subscriptSet i s
      pure (mm.setCol i v))
    (pure Mat.zero)

/-- Embedding of `mat`'s `operator==` (`mat.inl`): `std::ranges::equal`
over the column sequences, comparing columns with `vec`'s `operator==`. -/
def matBeq [Zero α] [DecidableEq α] (m1 m2 : Mat r c α) : Bool :=
  (List.range c).all fun j => Vec.beqN (m1.col j) (m2.col j)

/-- Embedding of `ndml::transpose` (`mat.inl` lines 331-345): a
default-constructed `C × R` result whose entry `t[j, i]` is assigned
`m[i, j]` for every `i < C`, `j < R`. -/
def transpose [Zero α] (mm : Mat r c α) : Mat c r α :=
  ⟨fun j => Vec.ofFnN c fun i => mm.entry i (j : Nat)⟩

/-- Embedding of matrix multiplication `operator*` (`mat.inl` lines
586-603): a default-constructed `N × K` product whose cell `p[j, i]`
accumulates `lhs[k, i] * rhs[j, k]` over the loop `k = 0 .. M-1`. -/
def matMul [Zero α] [Add α] [Mul α] (lhs : Mat n m α) (rhs : Mat m k α) : Mat n k α :=
  ⟨fun j => Vec.ofFnN n fun i =>
    (List.range m).foldl (fun acc kk => acc + lhs.entry kk i * rhs.entry (j : Nat) kk) 0⟩

/-- Embedding of `operator*=` for matrices (`mat.inl` lines 515-520):
`lhs = lhs * rhs` (both operands share the type `mat<R, C, T>`, which
forces `R = C`). -/
def matMulAssign [Zero α] [Add α] [Mul α] (lhs rhs : Mat n n α) : Mat n n α :=
  matMul lhs rhs

/-- Embedding of matrix-vector multiplication `operator*` (`mat.inl` lines
605-619): component `p[i]` accumulates `m[k, i] * v[k]` over
`k = 0 .. M-1`. -/
def matVecMul [Zero α] [Add α] [Mul α] (mm : Mat n m α) (v : Vec m α) : Vec n α :=
  Vec.ofFnN n fun i =>
    (List.range m).foldl (fun acc kk => acc + mm.entry kk i * v.nth kk) 0

/-- Embedding of matrix-scalar division `operator/` / `operator/=`
(`mat.inl`): every column is divided componentwise by the scalar. -/
def matDivScalar [Div α] (mm : Mat r c α) (s : α) : Mat r c α :=
  ⟨fun j => (mm.cols j).divScalar s⟩

/-- Embedding of the 3×3 `determinant` specialization (`mat.inl` lines
383-402), with `mij` abbreviating `m[i][j]` (column `i`, row `j`) exactly
as the source names them. -/
def determinant3 [Zero α] [Add α] [Mul α] [Sub α] (mm : Mat 3 3 α) : α :=
  (mm.entry 0 2 * mm.entry 1 0 * mm.entry 2 1) +
    (mm.entry 0 0 * mm.entry 1 1 * mm.entry 2 2) +
    (mm.entry 0 1 * mm.entry 1 2 * mm.entry 2 0) -
    (mm.entry 0 1 * mm.entry 1 0 * mm.entry 2 2) -
    (mm.entry 0 2 * mm.entry 1 1 * mm.entry 2 0) -
    (mm.entry 0 0 * mm.entry 1 2 * mm.entry 2 1)

/-- Embedding of the 2×2 `inverse` specialization (`mat.inl` lines
424-442), reproduced verbatim: note that the source computes
`det = m00 * m11 - m01 * m11` (the second product multiplies `m01` by
`m11`, not by `m10`). -/
def inverse2 [Field α] (mm : Mat 2 2 α) : Mat 2 2 α :=
  let m00 := mm.entry 0 0
  let m01 := mm.entry 0 1
  let m10 := mm.entry 1 0
  let m11 := mm.entry 1 1
  let det := m00 * m11 - m01 * m11
  matDivScalar ⟨![Vec.mk2 m11 (-m01), Vec.mk2 (-m10) m00]⟩ det

/-- Embedding of `ndml::translation` (transform builders): the identity
matrix of size `(nv+1) × (nv+1)` (scalar construction from `1`), with the
loop `t[N][i] = v[i]` placing `v` in the leading rows of the last
column. -/
def translation [Zero α] [One α] (v : Vec nv α) : Mat (nv + 1) (nv + 1) α :=
  (List.range nv).foldl
    (fun t i => t.setEntry nv i (v.nth i))
    (matScalar (nv + 1) (nv + 1) 1)

/-- Embedding of the quaternion Hamilton product `operator*`
(`quat.hpp` lines 97-106), componentwise per the source formula. -/
def hamilton [Add α] [Sub α] [Mul α] (l rq : Vec 4 α) : Vec 4 α :=
  Vec.mk4
    (l.w * rq.x + l.x * rq.w + l.y * rq.z - l.z * rq.y)
    (l.w * rq.y - l.x * rq.z + l.y * rq.w + l.z * rq.x)
    (l.w * rq.z + l.x * rq.y - l.y * rq.x + l.z * rq.w)
    (l.w * rq.w - l.x * rq.x - l.y * rq.y - l.z * rq.z)

/-- Embedding of quaternion-vector conjugation `operator*`
(`quat.hpp` lines 108-115): with `imag = (q.x, q.y, q.z)` and
`ort = imag × v`, the result is `v + 2 * (q.w * ort + imag × ort)`
(scalar-vector products multiply each component on the right, as
`operator*(scale, v)` forwards to `v * scale`). -/
def quatVecMul [Ring α] (q : Vec 4 α) (v : Vec 3 α) : Vec 3 α :=
  let imag : Vec 3 α := Vec.mk3 q.x q.y q.z
  let ort : Vec 3 α := Vec.cross imag v
  Vec.add v (Vec.smul (Vec.add (Vec.smul ort q.w) (Vec.cross imag ort)) 2)

/-- Embedding of `ndml::norm` (`operation.inl`): the square root of the
squared norm (the source computes it in `double`; modelled here by exact
real arithmetic). -/
noncomputable def vnorm (v : Vec n ℝ) : ℝ := Real.sqrt (Vec.normSq v)

/-- Model of `std::atan2` on finite real arguments: the principal
arctangent of `y / x`, corrected by quadrant, with the standard values on
the axes. -/
noncomputable def atan2 (y x : ℝ) : ℝ :=
  if 0 < x then Real.arctan (y / x)
  else if x < 0 then
    (if 0 ≤ y then Real.arctan (y / x) + Real.pi else Real.arctan (y / x) - Real.pi)
  else
    (if 0 < y then Real.pi / 2 else if y < 0 then -(Real.pi / 2) else 0)

/-- Embedding of `ndml::axis_angle` (`quat.hpp` lines 75-88).  The machine
epsilon `std::numeric_limits<T>::epsilon()` is abstracted into the
parameter `eps`; the degenerate branch `return {}` value-initializes the
pair (zero vector, zero angle). -/
noncomputable def axisAngle (eps : ℝ) (q : Vec 4 ℝ) : Vec 3 ℝ × ℝ :=
  let imag : Vec 3 ℝ := Vec.mk3 q.x q.y q.z
  let imagNorm : ℝ := vnorm imag
  if imagNorm ≤ eps then (Vec.zero, 0)
  else (imag.divScalar imagNorm, 2 * atan2 imagNorm q.w)

theorem Vec.dot_three [Mul α] [Add α] [Zero α] (u v : Vec 3 α) :
    u.dot v = 0 + u.x * v.x + u.y * v.y + u.z * v.z := rfl

theorem Vec.dot_four [Mul α] [Add α] [Zero α] (u v : Vec 4 α) :
    u.dot v = 0 + u.x * v.x + u.y * v.y + u.z * v.z + u.w * v.w := rfl

theorem foldl_range_eq_sum {β : Type} [AddCommMonoid β] (mN : Nat) (f : Nat → β) :
    (List.range mN).foldl (fun s i => s + f i) 0 = Finset.sum (Finset.range mN) f := by
  induction mN with
  | zero => simp
  | succ mN ih =>
    rw [List.range_succ, List.foldl_append, ih, Finset.sum_range_succ]
    rfl

theorem matBeq_eq_true_iff [Zero α] [DecidableEq α] (m1 m2 : Mat r c α) :
    matBeq m1 m2 = true ↔ ∀ j < c, ∀ i < r, m1.entry j i = m2.entry j i := by
  simp [matBeq, Vec.beqN, List.all_eq_true, List.mem_range, Mat.entry]

theorem Mat.col_transpose [Zero α] (mm : Mat r c α) {jj : Nat} (hjj : jj < r) :
    (transpose mm).col jj = Vec.ofFnN c (fun i => mm.entry i jj) := by
  simp [transpose, Mat.col, hjj]

theorem entry_transpose [Zero α] (mm : Mat r c α) (hc : c ≤ 4)
    {jj ii : Nat} (hjj : jj < r) (hii : ii < c) :
    (transpose mm).entry jj ii = mm.entry ii jj := by
  show ((transpose mm).col jj).nth ii = mm.entry ii jj
  rw [Mat.col_transpose mm hjj, Vec.nth_ofFnN _ hc hii]

theorem range_two : List.range 2 = [0, 1] := rfl

theorem range_three : List.range 3 = [0, 1, 2] := rfl

theorem range_four : List.range 4 = [0, 1, 2, 3] := rfl

/-- Concrete input on which the 2×2 inverse specialization fails: the
matrix with columns `(2, 1)` and `(0, 1)` (row-major `[[2, 0], [1, 1]]`).
Its determinant `m00·m11 − m01·m10` is `2`, while the source's
`det = m00·m11 − m01·m11` evaluates to `1`. -/
def mbugC1 : Mat 2 2 ℚ :=
  ⟨fun j => if (j : Nat) = 0 then Vec.mk2 2 1 else Vec.mk2 0 1⟩

/-- C1: refuted on the code.  For the matrix `mbugC1`, whose determinant
`m00·m11 − m01·m10 = 2` is nonzero, the 2×2 `inverse` divides the adjugate
by the wrong determinant (`m00·m11 − m01·m11 = 1`), so
`inverse(m) * m = 2·identity ≠ identity`: the product's `[0,0]` entry is
`2` where the identity (scalar construction from `1`) has `1`. -/
theorem C1_inverse2_bug :
    (mbugC1.entry 0 0 * mbugC1.entry 1 1 - mbugC1.entry 0 1 * mbugC1.entry 1 0 = 2) ∧
    (matMul (inverse2 mbugC1) mbugC1).entry 0 0 = 2 ∧
    (matMul (inverse2 mbugC1) mbugC1).entry 0 0 ≠ (matScalar 2 2 (1 : ℚ)).entry 0 0 := by
  refine ⟨?_, ?_, ?_⟩ <;>
    simp [mbugC1, inverse2, matDivScalar, matMul, matScalar, Mat.entry, Mat.col,
      Mat.setEntry, Mat.setCol, Mat.zero, Vec.mk2, Vec.divScalar, Vec.mapN, Vec.zero,
      Vec.ofFnN, Vec.nth, Vec.setNth, range_two, List.foldl_cons, List.foldl_nil] <;>
    norm_num

/-- C2: for every vector dimension `1 ≤ n ≤ 4` and index `i`, assignment
through the subscript operator at `i < n` succeeds and a subsequent read
at `i` returns exactly the written value, while any access at `i ≥ n`
fails with the out-of-range error (and no modified vector is produced). -/
theorem C2_vec_subscript (nd : Nat) (α : Type) (h1 : 1 ≤ nd) (h4 : nd ≤ 4)
    (v : Vec nd α) (i : Nat) (a : α) :
    (i < nd → v.subscriptSet i a = .ok (v.setNth i a) ∧ (v.setNth i a).get i = .ok a) ∧
    (nd ≤ i → v.get i = .error oorMsg ∧ v.subscriptSet i a = .error oorMsg) := by
  refine ⟨fun hi => ?_, fun hi => ?_⟩
  · match i, hi with
    | 0, hi =>
      exact ⟨by simp [Vec.subscriptSet, Vec.get, hi], by simp [Vec.get, Vec.setNth, hi]⟩
    | 1, hi =>
      exact ⟨by simp [Vec.subscriptSet, Vec.get, hi], by simp [Vec.get, Vec.setNth, hi]⟩
    | 2, hi =>
      exact ⟨by simp [Vec.subscriptSet, Vec.get, hi], by simp [Vec.get, Vec.setNth, hi]⟩
    | 3, hi =>
      exact ⟨by simp [Vec.subscriptSet, Vec.get, hi], by simp [Vec.get, Vec.setNth, hi]⟩
    | (i + 4), hi => exact absurd hi (by omega)
  · match i, hi with
    | 0, hi => exact absurd hi (by omega)
    | 1, hi =>
      have hlt : ¬ 1 < nd := by omega
      exact ⟨by simp [Vec.get, hlt], by simp [Vec.subscriptSet, Vec.get, hlt]⟩
    | 2, hi =>
      have hlt : ¬ 2 < nd := by omega
      exact ⟨by simp [Vec.get, hlt], by simp [Vec.subscriptSet, Vec.get, hlt]⟩
    | 3, hi =>
      have hlt : ¬ 3 < nd := by omega
      exact ⟨by simp [Vec.get, hlt], by simp [Vec.subscriptSet, Vec.get, hlt]⟩
    | (i + 4), hi => exact ⟨rfl, rfl⟩

/-- Witness for C2 at `n = 3`, `α = ℚ`: writing `5` at index `1` of
`(1, 2, 3)` reads back as `5`, and index `3` is rejected. -/
theorem C2_vec_subscript_witness :
    ((Vec.mk3 (1 : ℚ) 2 3).setNth 1 5).get 1 = .ok 5 ∧
    (Vec.mk3 (1 : ℚ) 2 3).get 3 = .error oorMsg := by
  refine ⟨((C2_vec_subscript 3 ℚ (by decide) (by decide)
    (Vec.mk3 (1 : ℚ) 2 3) 1 5).1 (by decide)).2, ?_⟩
  exact ((C2_vec_subscript 3 ℚ (by decide) (by decide)
    (Vec.mk3 (1 : ℚ) 2 3) 3 5).2 (by decide)).1

/-- C5: refuted on the code.  The scalar constructor loops over every
column index `i < C` and writes `(*this)[i, i]`; the row index goes
through `vec::operator[]`, so for a matrix with more columns than rows
(here `mat<2, 3>`) the write at `i = 2` throws out-of-range inside the
`noexcept` constructor (aborting the program) instead of producing the
diagonal matrix the claim describes.  For `C ≤ R` (here `mat<2, 2>`) the
construction succeeds and sets exactly the main diagonal. -/
theorem C5_mat_scalar_ctor :
    matScalarChecked 2 3 (7 : ℚ) = .error oorMsg ∧
    matScalarChecked 2 2 (7 : ℚ) = .ok (matScalar 2 2 (7 : ℚ)) ∧
    ((matScalar 2 2 (7 : ℚ)).entry 0 0 = 7 ∧ (matScalar 2 2 (7 : ℚ)).entry 1 1 = 7) ∧
    ((matScalar 2 2 (7 : ℚ)).entry 0 1 = 0 ∧ (matScalar 2 2 (7 : ℚ)).entry 1 0 = 0) := by
  refine ⟨rfl, rfl, by decide, by decide⟩

/-- Matrix with two (in fact three) equal rows, every row being
`(1, 2, 5)`. -/
def rowDupM : Mat 3 3 ℚ := ⟨![Vec.mk3 1 1 1, Vec.mk3 2 2 2, Vec.mk3 5 5 5]⟩

/-- C8: the 3×3 determinant of any matrix with two equal rows is `0`, and
the determinant of the 3×3 identity (scalar construction from `1`)
is `1`. -/
theorem C8_det3 (mm : Mat 3 3 ℚ) (r1 r2 : Nat) (hr1 : r1 < 3) (hr2 : r2 < 3)
    (hne : r1 ≠ r2) (heq : ∀ ci < 3, mm.entry ci r1 = mm.entry ci r2) :
    determinant3 mm = 0 ∧ determinant3 (matScalar 3 3 (1 : ℚ)) = 1 := by
  refine ⟨?_, ?_⟩
  case refine_2 =>
    simp [determinant3, matScalar, Mat.entry, Mat.col, Mat.setEntry, Mat.setCol,
      Mat.zero, Vec.zero, Vec.nth, Vec.setNth, range_three, List.foldl_cons,
      List.foldl_nil]
  have e0 := heq 0 (by omega)
  have e1 := heq 1 (by omega)
  have e2 := heq 2 (by omega)
  interval_cases r1 <;> interval_cases r2 <;>
    first
      | exact absurd rfl hne
      | (unfold determinant3; rw [e0, e1, e2]; ring)

/-- Witness for C8: the concrete matrix `rowDupM` (all rows `(1, 2, 5)`)
has determinant `0`, and the identity has determinant `1`. -/
theorem C8_det3_witness :
    determinant3 rowDupM = 0 ∧ determinant3 (matScalar 3 3 (1 : ℚ)) = 1 :=
  C8_det3 rowDupM 0 1 (by decide) (by decide) (by decide) (by decide)

/-- C3: `translation(v)` is the identity matrix with `v` placed in the
leading rows of the last column (entry characterization over all in-range
indices, column `ci`, row `ri`), and the concrete homogeneous point
product `translation((1,2,3)) * (0,0,0,1) = (1,2,3,1)` holds. -/
theorem C3_translation (v : Vec 3 ℚ) (ci ri : Nat) (hci : ci < 4) (hri : ri < 4) :
    (translation v).entry ci ri =
      (if ci = 3 then (if ri < 3 then v.nth ri else 1) else (if ri = ci then 1 else 0)) ∧
    matVecMul (translation (Vec.mk3 (1 : ℚ) 2 3)) (Vec.mk4 0 0 0 1) = Vec.mk4 1 2 3 1 := by
  constructor
  · interval_cases ci <;> interval_cases ri <;> rfl
  · simp +decide [matVecMul, translation, matScalar, Mat.entry, Mat.col, Mat.setEntry,
      Mat.setCol, Mat.zero, Vec.ofFnN, Vec.zero, Vec.nth, Vec.setNth, Vec.mk3, Vec.mk4,
      range_three, range_four, List.foldl_cons, List.foldl_nil]

/-- Witness for C3 at the translation of `(1, 2, 3)`, entry position
`(column 3, row 1)`. -/
theorem C3_translation_witness :
    ((translation (Vec.mk3 (1 : ℚ) 2 3)).entry 3 1 =
      (if (3 : Nat) = 3 then (if (1 : Nat) < 3 then (Vec.mk3 (1 : ℚ) 2 3).nth 1 else 1)
        else (if (1 : Nat) = 3 then 1 else 0))) ∧
    matVecMul (translation (Vec.mk3 (1 : ℚ) 2 3)) (Vec.mk4 0 0 0 1) = Vec.mk4 1 2 3 1 :=
  C3_translation (Vec.mk3 (1 : ℚ) 2 3) 3 1 (by decide) (by decide)

/-- C4: the matrix product of an `N × M` and an `M × K` matrix is the
`N × K` matrix whose entry at column `j`, row `i` is
`Σₖ lhs[k, i] · rhs[j, k]` (true matrix multiplication), and `*=` assigns
exactly that product to the left operand. -/
theorem C4_matMul (n4 m4 k4 : Nat) (hn : n4 ≤ 4) (hm : m4 ≤ 4)
    (lhs : Mat n4 m4 ℚ) (rhs : Mat m4 k4 ℚ) (j i : Nat) (hj : j < k4) (hi : i < n4) :
    (matMul lhs rhs).entry j i
        = Finset.sum (Finset.range m4) (fun x => lhs.entry x i * rhs.entry j x) ∧
    ∀ (a b : Mat n4 n4 ℚ), matMulAssign a b = matMul a b := by
  refine ⟨?_, fun a b => rfl⟩
  have hcol : (matMul lhs rhs).col j = Vec.ofFnN n4 (fun i' =>
      (List.range m4).foldl (fun acc kk => acc + lhs.entry kk i' * rhs.entry j kk) 0) := by
    simp [matMul, Mat.col, hj]
  rw [Mat.entry, hcol, Vec.nth_ofFnN _ hn hi, foldl_range_eq_sum]

/-- Concrete non-commuting 2×2 pair used to witness C4. -/
def matA : Mat 2 2 ℚ := ⟨fun j => if (j : Nat) = 0 then Vec.mk2 1 2 else Vec.mk2 3 4⟩

/-- Second matrix of the concrete pair. -/
def matB : Mat 2 2 ℚ := ⟨fun j => if (j : Nat) = 0 then Vec.mk2 5 6 else Vec.mk2 7 8⟩

/-- Witness for C4 at the concrete pair `matA`, `matB`, entry `(0, 0)`. -/
theorem C4_matMul_witness :
    (matMul matA matB).entry 0 0
      = Finset.sum (Finset.range 2) (fun x => matA.entry x 0 * matB.entry 0 x) :=
  (C4_matMul 2 2 2 (by decide) (by decide) matA matB 0 0 (by decide) (by decide)).1

/-- C9: the transpose of an `R × C` matrix is the `C × R` matrix with
`transpose(m)[j, i] = m[i, j]` for all in-range indices, and transposing
twice gives back the original matrix (under the library's own equality
comparison). -/
theorem C9_transpose (r4 c4 : Nat) (hr : r4 ≤ 4) (hc : c4 ≤ 4) (mm : Mat r4 c4 ℚ)
    (i j : Nat) (hic : i < c4) (hjr : j < r4) :
    (transpose mm).entry j i = mm.entry i j ∧
    matBeq (transpose (transpose mm)) mm = true := by
  refine ⟨entry_transpose mm hc hjr hic, ?_⟩
  rw [matBeq_eq_true_iff]
  intro jj hjj ii hii
  rw [entry_transpose (transpose mm) hr hjj hii, entry_transpose mm hc hii hjj]

/-- Concrete 2×3 matrix used to witness C9. -/
def matC9 : Mat 2 3 ℚ :=
  ⟨fun j => if (j : Nat) = 0 then Vec.mk2 1 2 else if (j : Nat) = 1 then Vec.mk2 3 4
    else Vec.mk2 5 6⟩

/-- Witness for C9 at the concrete 2×3 matrix, index pair `(1, 2)`. -/
theorem C9_transpose_witness :
    (transpose matC9).entry 1 2 = matC9.entry 2 1 ∧
    matBeq (transpose (transpose matC9)) matC9 = true :=
  C9_transpose 2 3 (by decide) (by decide) matC9 2 1 (by decide) (by decide)

/-- C7: the Hamilton product satisfies the norm identity
`|p·q|² = |p|²·|q|²` over exact arithmetic, so the product of two unit
quaternions is again a unit quaternion. -/
theorem C7_hamilton_norm (α : Type) [Field α] (p q : Vec 4 α)
    (hp : Vec.normSq p = 1) (hq : Vec.normSq q = 1) :
    Vec.normSq (hamilton p q) = Vec.normSq p * Vec.normSq q ∧
    Vec.normSq (hamilton p q) = 1 := by
  have key : Vec.normSq (hamilton p q) = Vec.normSq p * Vec.normSq q := by
    rw [Vec.normSq, Vec.normSq, Vec.normSq, Vec.dot_four, Vec.dot_four, Vec.dot_four]
    simp only [hamilton, Vec.mk4]
    ring
  exact ⟨key, by rw [key, hp, hq, one_mul]⟩

/-- Witness for C7 at `p = q = (0, 0, 0, 1)` over `ℚ`. -/
theorem C7_hamilton_norm_witness :
    Vec.normSq (hamilton (Vec.mk4 (0 : ℚ) 0 0 1) (Vec.mk4 (0 : ℚ) 0 0 1)) = 1 :=
  (C7_hamilton_norm ℚ (Vec.mk4 (0 : ℚ) 0 0 1) (Vec.mk4 (0 : ℚ) 0 0 1)
    (by rw [Vec.normSq, Vec.dot_four]; simp [Vec.mk4])
    (by rw [Vec.normSq, Vec.dot_four]; simp [Vec.mk4])).2

/-- C10: conjugation of a 3-vector by a unit quaternion preserves the
squared norm of the vector, over exact arithmetic. -/
theorem C10_conjugation_norm (α : Type) [Field α] (q : Vec 4 α) (v : Vec 3 α)
    (hq : Vec.normSq q = 1) :
    Vec.normSq (quatVecMul q v) = Vec.normSq v := by
  have hq' : q.x * q.x + q.y * q.y + q.z * q.z + q.w * q.w = 1 := by
    rw [← hq, Vec.normSq, Vec.dot_four]
    ring
  rw [Vec.normSq, Vec.normSq, Vec.dot_three, Vec.dot_three]
  simp only [quatVecMul, Vec.add, Vec.smul, Vec.cross, Vec.mk3, Vec.zipN, Vec.mapN]
  norm_num
  linear_combination
    (4 * ((q.x * q.x + q.y * q.y + q.z * q.z) * (v.x * v.x + v.y * v.y + v.z * v.z)
      - (q.x * v.x + q.y * v.y + q.z * v.z) * (q.x * v.x + q.y * v.y + q.z * v.z))) * hq'

/-- Witness for C10 at `q = (0, 0, 0, 1)` and `v = (1, 2, 3)` over `ℚ`. -/
theorem C10_conjugation_norm_witness :
    Vec.normSq (quatVecMul (Vec.mk4 (0 : ℚ) 0 0 1) (Vec.mk3 (1 : ℚ) 2 3))
      = Vec.normSq (Vec.mk3 (1 : ℚ) 2 3) :=
  C10_conjugation_norm ℚ (Vec.mk4 (0 : ℚ) 0 0 1) (Vec.mk3 (1 : ℚ) 2 3)
    (by rw [Vec.normSq, Vec.dot_four]; simp [Vec.mk4])

/-- C6: `axis_angle(q)` returns the value-initialized (zero) pair when the
norm of the imaginary part `(q.x, q.y, q.z)` is at most the epsilon
threshold, and otherwise the pair
`(imag / |imag|, 2·atan2(|imag|, q.w))`. -/
theorem C6_axis_angle (eps : ℝ) (q : Vec 4 ℝ) :
    (Real.sqrt (q.x * q.x + q.y * q.y + q.z * q.z) ≤ eps →
      axisAngle eps q = (Vec.zero, 0)) ∧
    (eps < Real.sqrt (q.x * q.x + q.y * q.y + q.z * q.z) →
      axisAngle eps q =
        ((Vec.mk3 q.x q.y q.z).divScalar (Real.sqrt (q.x * q.x + q.y * q.y + q.z * q.z)),
          2 * atan2 (Real.sqrt (q.x * q.x + q.y * q.y + q.z * q.z)) q.w)) := by
  have hnq : vnorm (Vec.mk3 q.x q.y q.z)
      = Real.sqrt (q.x * q.x + q.y * q.y + q.z * q.z) := by
    have h1 : Vec.normSq (Vec.mk3 q.x q.y q.z) = q.x * q.x + q.y * q.y + q.z * q.z := by
      rw [Vec.normSq, Vec.dot_three]
      simp [Vec.mk3]
    rw [vnorm, h1]
  constructor
  · intro h
    rw [axisAngle]
    simp only [hnq]
    rw [if_pos h]
  · intro h
    rw [axisAngle]
    simp only [hnq]
    rw [if_neg (not_le.mpr h)]

/-- Witness for C6 at `eps = 1`, `q = (0, 0, 0, 1)` (degenerate branch). -/
theorem C6_axis_angle_witness :
    axisAngle 1 (Vec.mk4 (0 : ℝ) 0 0 1) = (Vec.zero, 0) := by
  apply (C6_axis_angle 1 (Vec.mk4 (0 : ℝ) 0 0 1)).1
  simp only [Vec.mk4]
  norm_num [Real.sqrt_zero]

end Ndml
